import Mathlib

/-!
Shallow embedding of the OCR text-matching core of the repository
(src/preston_rpa/ocr_engine.py, with constants from src/preston_rpa/config.py).

Python strings are modelled as lists of Unicode code points
(`Str := List Nat`); Python `bytes` values are lists of byte values.
Machine-level collaborators (screen capture, the OCR backends themselves,
file IO and logging) are outside the modelled core, exactly as in the
specification: the functions below start from the token data an OCR
backend returned, mirroring the Python code line by line.
-/

set_option maxRecDepth 4000

abbrev Str := List Nat

/-- Python `s.encode("latin-1")`: succeeds iff every code point fits in one
byte, producing one byte per character; raises (here: `none`) otherwise. -/
def latin1Encode : Str → Option (List Nat)
  | [] => some []
  | c :: rest => if c ≤ 0xFF then (latin1Encode rest).map (fun bs => c :: bs) else none

/-- Whether a byte is a UTF-8 continuation byte (10xxxxxx). -/
def isCont (b : Nat) : Bool := decide (0x80 ≤ b ∧ b < 0xC0)

/-- Code point of a two-byte UTF-8 sequence. -/
def utf8Val2 (b b2 : Nat) : Nat := (b - 0xC0) * 0x40 + (b2 - 0x80)

/-- Code point of a three-byte UTF-8 sequence. -/
def utf8Val3 (b b2 b3 : Nat) : Nat := (b - 0xE0) * 0x1000 + (b2 - 0x80) * 0x40 + (b3 - 0x80)

/-- Code point of a four-byte UTF-8 sequence. -/
def utf8Val4 (b b2 b3 b4 : Nat) : Nat :=
  (b - 0xF0) * 0x40000 + (b2 - 0x80) * 0x1000 + (b3 - 0x80) * 0x40 + (b4 - 0x80)

/-- Validity of a three-byte sequence: continuation bytes, not overlong,
not a surrogate. -/
def utf8Ok3 (b b2 b3 : Nat) : Bool :=
  isCont b2 && isCont b3 && decide (0x800 ≤ utf8Val3 b b2 b3)
    && !decide (0xD800 ≤ utf8Val3 b b2 b3 ∧ utf8Val3 b b2 b3 ≤ 0xDFFF)

/-- Validity of a four-byte sequence: continuation bytes, not overlong,
at most U+10FFFF. -/
def utf8Ok4 (b b2 b3 b4 : Nat) : Bool :=
  isCont b2 && isCont b3 && isCont b4 && decide (0x10000 ≤ utf8Val4 b b2 b3 b4)
    && decide (utf8Val4 b b2 b3 b4 ≤ 0x10FFFF)

/-- Decoding of one UTF-8 sequence, given its lead byte and the following
bytes: the code point and the bytes after the sequence, or `none` on a
stray continuation byte, truncated sequence, overlong encoding, surrogate
or code point beyond U+10FFFF (all of which raise in Python). -/
def utf8First (b : Nat) (rest : List Nat) : Option (Nat × List Nat) :=
  if b < 0x80 then some (b, rest)
  else if b < 0xC2 then none
  else if b < 0xE0 then
    match rest with
    | b2 :: rest2 => if isCont b2 then some (utf8Val2 b b2, rest2) else none
    | [] => none
  else if b < 0xF0 then
    match rest with
    | b2 :: b3 :: rest3 => if utf8Ok3 b b2 b3 then some (utf8Val3 b b2 b3, rest3) else none
    | _ => none
  else if b < 0xF5 then
    match rest with
    | b2 :: b3 :: b4 :: rest4 =>
      if utf8Ok4 b b2 b3 b4 then some (utf8Val4 b b2 b3 b4, rest4) else none
    | _ => none
  else none

/-- The decoding loop: one sequence at a time.  The fuel argument only
enables structural recursion; every sequence consumes at least its lead
byte, so the byte count bounds the number of sequences and the fuel never
runs out when started at the length. -/
def utf8DecodeGo : Nat → List Nat → Option Str
  | _, [] => some []
  | 0, _ :: _ => none
  | fuel + 1, b :: rest =>
    match utf8First b rest with
    | none => none
    | some (cp, rem) => (utf8DecodeGo fuel rem).map (fun cs => cp :: cs)

/-- Python `bytes.decode("utf-8")` with strict error handling. -/
def utf8Decode (bs : List Nat) : Option Str := utf8DecodeGo bs.length bs

/-- The `demojibake` helper of ocr_engine.py: re-encode as Latin-1 and
re-decode as UTF-8; on any failure return the input unchanged. -/
def demojibake (s : Str) : Str :=
  match latin1Encode s with
  | none => s
  | some bs =>
    match utf8Decode bs with
    | none => s
    | some t => t

/-- Unicode NFKD decomposition of one code point, restricted to the
character repertoire appearing in this development (Turkish letters with
canonical decompositions, no-break space); every other modelled character
has no decomposition and is returned unchanged, which matches the real
NFKD on those characters. -/
def nfkdChar (c : Nat) : Str :=
  if c = 0x130 then [0x49, 0x307]
  else if c = 0xA0 then [0x20]
  else if c = 0xC7 then [0x43, 0x327]
  else if c = 0xE7 then [0x63, 0x327]
  else if c = 0xD6 then [0x4F, 0x308]
  else if c = 0xF6 then [0x6F, 0x308]
  else if c = 0xDC then [0x55, 0x308]
  else if c = 0xFC then [0x75, 0x308]
  else if c = 0x15E then [0x53, 0x327]
  else if c = 0x15F then [0x73, 0x327]
  else if c = 0x11E then [0x47, 0x306]
  else if c = 0x11F then [0x67, 0x306]
  else [c]

/-- Concatenation of the images of a character-to-string map. -/
def strConcatMap (f : Nat → Str) : Str → Str
  | [] => []
  | c :: rest => f c ++ strConcatMap f rest

/-- `unicodedata.normalize("NFKD", s)` on the modelled repertoire. -/
def nfkd (s : Str) : Str := strConcatMap nfkdChar s

/-- The `str.maketrans("İIıŞşĞğÇçÖöÜü", "IIiSsGgCcOoUu")` table used by
`normalize_tr`: a one-to-one character substitution. -/
def trTransChar (c : Nat) : Nat :=
  if c = 0x130 then 0x49
  else if c = 0x49 then 0x49
  else if c = 0x131 then 0x69
  else if c = 0x15E then 0x53
  else if c = 0x15F then 0x73
  else if c = 0x11E then 0x47
  else if c = 0x11F then 0x67
  else if c = 0xC7 then 0x43
  else if c = 0xE7 then 0x63
  else if c = 0xD6 then 0x4F
  else if c = 0xF6 then 0x6F
  else if c = 0xDC then 0x55
  else if c = 0xFC then 0x75
  else c

/-- `s.translate(...)` with the table above. -/
def trFold (s : Str) : Str := s.map trTransChar

/-- One step of the dash-collapsing regex substitution: the character class
contains the ASCII hyphen, en dash U+2013, em dash U+2014 and minus U+2212,
each replaced by an ASCII hyphen. -/
def dashChar (c : Nat) : Nat :=
  if c = 0x2D ∨ c = 0x2013 ∨ c = 0x2014 ∨ c = 0x2212 then 0x2D else c

/-- The substitution of the dash regex over a whole string. -/
def dashFold (s : Str) : Str := s.map dashChar

/-- Python regex whitespace in str mode (the same set `str.isspace` uses). -/
def isSpace (c : Nat) : Bool :=
  decide (c = 0x20 ∨ (0x9 ≤ c ∧ c ≤ 0xD) ∨ (0x1C ≤ c ∧ c ≤ 0x1F) ∨ c = 0x85 ∨ c = 0xA0 ∨
    c = 0x1680 ∨ (0x2000 ≤ c ∧ c ≤ 0x200A) ∨ c = 0x2028 ∨ c = 0x2029 ∨ c = 0x202F ∨
    c = 0x205F ∨ c = 0x3000)

/-- Python regex substitution of every maximal whitespace run by a single
ASCII space, written as a right fold: a whitespace character contributes a
single 0x20 unless the collapsed tail already begins with the 0x20 of the
same run. -/
def wsCollapse : Str → Str
  | [] => []
  | c :: rest =>
    if isSpace c then
      if (wsCollapse rest).head? = some 0x20 then wsCollapse rest else 0x20 :: wsCollapse rest
    else c :: wsCollapse rest

/-- Removal of trailing whitespace, via the reversed string. -/
def dropTrailingSp (s : Str) : Str := ((s.reverse).dropWhile isSpace).reverse

/-- Python `str.strip()`: remove leading and trailing whitespace. -/
def pyStrip (s : Str) : Str := dropTrailingSp (s.dropWhile isSpace)

/-- Python `str.lower()` on one code point, for the characters reachable in
this development: ASCII letters, Latin-1 letters, and the dotted capital I
whose lowercase form is the two-character sequence i + combining dot. -/
def pyLowerChar (c : Nat) : Str :=
  if 0x41 ≤ c ∧ c ≤ 0x5A then [c + 0x20]
  else if c = 0x130 then [0x69, 0x307]
  else if 0xC0 ≤ c ∧ c ≤ 0xDE ∧ c ≠ 0xD7 then [c + 0x20]
  else [c]

/-- Python `str.lower()` over a whole string. -/
def pyLowerStr (s : Str) : Str := strConcatMap pyLowerChar s

/-- Python `str.upper()` on one code point, for the modelled repertoire. -/
def pyUpperChar (c : Nat) : Str :=
  if 0x61 ≤ c ∧ c ≤ 0x7A then [c - 0x20]
  else if c = 0x131 then [0x49]
  else if c = 0xDF then [0x53, 0x53]
  else if c = 0x15F then [0x15E]
  else if c = 0x11F then [0x11E]
  else if 0xE0 ≤ c ∧ c ≤ 0xFE ∧ c ≠ 0xF7 then [c - 0x20]
  else [c]

/-- Python `str.upper()` over a whole string. -/
def pyUpperStr (s : Str) : Str := strConcatMap pyUpperChar s

/-- Python `str.casefold()` on one code point: like lower, with the sharp s
expanding to a double s. -/
def pyCasefoldChar (c : Nat) : Str := if c = 0xDF then [0x73, 0x73] else pyLowerChar c

/-- Python `str.casefold()` over a whole string. -/
def pyCasefoldStr (s : Str) : Str := strConcatMap pyCasefoldChar s

/-- The `normalize_tr` function of ocr_engine.py: demojibake, NFKD,
Turkish character translation, dash unification, whitespace collapse,
strip, lowercase, applied in exactly the source order. -/
def normalizeTr (s : Str) : Str :=
  pyLowerStr (pyStrip (wsCollapse (dashFold (trFold (nfkd (demojibake s))))))

/-- Whether `needle` is a prefix of `hay`, as Booleans on code points. -/
def startsWithStr : Str → Str → Bool
  | [], _ => true
  | _ :: _, [] => false
  | a :: as2, b :: bs => decide (a = b) && startsWithStr as2 bs

/-- Python `needle in hay` on strings: substring containment (the empty
needle is contained in every string). -/
def isSubstr (needle : Str) : Str → Bool
  | [] => startsWithStr needle []
  | c :: rest => startsWithStr needle (c :: rest) || isSubstr needle rest

/-- Indexing with the Python convention used by difflib (`a[i]`); out of
range reads never occur on the ranges the algorithm visits. -/
def getN (l : List Nat) (i : Nat) : Nat := l.getD i 0

/-- Ascending list of the positions of `c` in `b` (difflib `b2j` entries). -/
def positionsOf (b : List Nat) (c : Nat) : List Nat :=
  (List.range b.length).filter (fun j => decide (getN b j = c))

/-- difflib autojunk: an element is popular when `b` has at least 200
elements and the element occurs more than `len(b) // 100 + 1` times. -/
def isPopular (b : List Nat) (c : Nat) : Bool :=
  decide (200 ≤ b.length) && decide (b.length / 100 + 1 < b.count c)

/-- difflib `b2j` lookup: positions of `c` in `b`, with popular elements
removed (autojunk); `SequenceMatcher(None, ...)` has no junk predicate. -/
def b2j (b : List Nat) (c : Nat) : List Nat :=
  if isPopular b c then [] else positionsOf b c

/-- Dictionary lookup with default 0 (difflib `j2len.get(j - 1, 0)`). -/
def lookupZ (m : List (Nat × Nat)) (j : Nat) : Nat := (m.lookup j).getD 0

/-- One inner-loop step of difflib `find_longest_match`: extend the run
ending at `(i, j)` using the previous row `jl`, record it in the new row,
and update the best block on a strictly longer run. -/
def flmJStep (jl : List (Nat × Nat)) (i : Nat)
    (acc : List (Nat × Nat) × (Nat × Nat × Nat)) (j : Nat) :
    List (Nat × Nat) × (Nat × Nat × Nat) :=
  let k := (if j = 0 then 0 else lookupZ jl (j - 1)) + 1
  let best := acc.2
  if best.2.2 < k then ((j, k) :: acc.1, (i + 1 - k, j + 1 - k, k))
  else ((j, k) :: acc.1, best)

/-- One outer-loop row of difflib `find_longest_match` (index `i` of `a`). -/
def flmRow (a b : List Nat) (blo bhi : Nat)
    (st : List (Nat × Nat) × (Nat × Nat × Nat)) (i : Nat) :
    List (Nat × Nat) × (Nat × Nat × Nat) :=
  let js := (b2j b (getN a i)).filter (fun j => decide (blo ≤ j) && decide (j < bhi))
  js.foldl (flmJStep st.1 i) ([], st.2)

/-- The dynamic-programming phase of difflib `find_longest_match`. -/
def flmMain (a b : List Nat) (alo ahi blo bhi : Nat) : Nat × Nat × Nat :=
  ((List.range' alo (ahi - alo)).foldl (flmRow a b blo bhi) ([], (alo, blo, 0))).2

/-- The left extension loop of difflib `find_longest_match`, with explicit
fuel for structural recursion: each step requires `alo < bi` and decreases
`bi`, so `bi` itself bounds the number of steps (the junk set is empty for
`SequenceMatcher(None, ...)`, so the non-junk condition is always satisfied
and the junk extension loops never run). -/
def extLeftGo (a b : List Nat) (alo blo : Nat) : Nat → Nat → Nat → Nat → Nat × Nat × Nat
  | 0, bi, bj, bs => (bi, bj, bs)
  | fuel + 1, bi, bj, bs =>
    if alo < bi ∧ blo < bj ∧ getN a (bi - 1) = getN b (bj - 1) then
      extLeftGo a b alo blo fuel (bi - 1) (bj - 1) (bs + 1)
    else (bi, bj, bs)

/-- The left extension loop of difflib `find_longest_match`. -/
def extLeft (a b : List Nat) (alo blo : Nat) (bi bj bs : Nat) : Nat × Nat × Nat :=
  extLeftGo a b alo blo bi bi bj bs

/-- The right extension loop of difflib `find_longest_match`, with explicit
fuel: each step requires `bi + bs < ahi` and increases `bs`, so `ahi`
bounds the number of steps. -/
def extRightGo (a b : List Nat) (ahi bhi : Nat) (bi bj : Nat) : Nat → Nat → Nat
  | 0, bs => bs
  | fuel + 1, bs =>
    if bi + bs < ahi ∧ bj + bs < bhi ∧ getN a (bi + bs) = getN b (bj + bs) then
      extRightGo a b ahi bhi bi bj fuel (bs + 1)
    else bs

/-- The right extension loop of difflib `find_longest_match`. -/
def extRight (a b : List Nat) (ahi bhi : Nat) (bi bj : Nat) (bs : Nat) : Nat :=
  extRightGo a b ahi bhi bi bj ahi bs

/-- difflib `SequenceMatcher.find_longest_match` on a range pair. -/
def findLongestMatch (a b : List Nat) (alo ahi blo bhi : Nat) : Nat × Nat × Nat :=
  let m := flmMain a b alo ahi blo bhi
  let l := extLeft a b alo blo m.1 m.2.1 m.2.2
  (l.1, l.2.1, extRight a b ahi bhi l.1 l.2.1 l.2.2)

/-- Total size of the matching blocks of difflib `get_matching_blocks`,
computed by the same recursive range splitting; the fuel strictly exceeds
the maximal recursion depth, so it never runs out. -/
def matchSumGo (a b : List Nat) : Nat → Nat → Nat → Nat → Nat → Nat
  | 0, _, _, _, _ => 0
  | fuel + 1, alo, ahi, blo, bhi =>
    let m := findLongestMatch a b alo ahi blo bhi
    if m.2.2 = 0 then 0
    else
      m.2.2 + matchSumGo a b fuel alo m.1 blo m.2.1
        + matchSumGo a b fuel (m.1 + m.2.2) ahi (m.2.1 + m.2.2) bhi

/-- The number `M` of matching characters between `a` and `b` found by
difflib `SequenceMatcher(None, a, b).get_matching_blocks()`. -/
def seqMatchSum (a b : List Nat) : Nat :=
  matchSumGo a b (a.length + b.length + 1) 0 a.length 0 b.length

/-- difflib `SequenceMatcher(None, a, b).ratio() = 2 * M / (len(a) + len(b))`,
which difflib defines as 1 when both strings are empty. -/
def simScore (a b : List Nat) : ℚ :=
  if a.length + b.length = 0 then 1
  else Rat.divInt (2 * seqMatchSum a b) (a.length + b.length)

/-- Modelled from the spec: ocr_engine.py imports OCR_FUZZY_THRESHOLD from
config.py, but config.py (the whole of it is in the repository) does not
define it; the missing constant is modelled as the default fuzzy threshold
0.8 that the spec and the in-repository flexible_text_match default use. -/
def OCR_FUZZY_THRESHOLD : ℚ := Rat.divInt 4 5

/-- The fuzzy acceptance test `ratio >= OCR_FUZZY_THRESHOLD` of
`_find_text_engine`. -/
def simOk (a b : List Nat) : Bool := decide (OCR_FUZZY_THRESHOLD ≤ simScore a b)

/-- Rational multiplication, implemented through `Rat.divInt` (equal to the
standard product; the Python sources compute with floats, embedded here as
exact rationals). -/
def qMul (a b : ℚ) : ℚ := Rat.divInt (a.num * b.num) ((a.den : Int) * (b.den : Int))

/-- Rational addition through `Rat.divInt`. -/
def qAdd (a b : ℚ) : ℚ :=
  Rat.divInt (a.num * (b.den : Int) + b.num * (a.den : Int)) ((a.den : Int) * (b.den : Int))

/-- Rational division through `Rat.divInt`. -/
def qDiv (a b : ℚ) : ℚ := Rat.divInt (a.num * (b.den : Int)) ((a.den : Int) * b.num)

/-- Embedding of an integer into the rationals. -/
def intQ (n : Int) : ℚ := Rat.divInt n 1

/-- Python `int()` applied to a (non-integral) number: truncation toward
zero. -/
def pyInt (q : ℚ) : Int := Int.tdiv q.num (q.den : Int)

/-- A bounding box `(x, y, w, h)` or region `(left, top, width, height)`. -/
abbrev Rect := Int × Int × Int × Int

/-- One OCR word token as it appears as a row of the data frame that
`_screenshot` returns: recognised text, box, confidence on the 0-100
scale, and the Tesseract grouping identifiers (EasyOCR rows carry the
geometrically computed `line` and zeros for the other three, matching the
`getattr(row, ..., 0)` defaults of `_find_text_engine`). -/
structure Tok where
  text : Str
  left : Int
  top : Int
  width : Int
  height : Int
  conf : ℚ
  page : Int
  block : Int
  par : Int
  line : Int
deriving DecidableEq

/-- One aggregated line of `_find_text_engine`: the dictionary value
holding the word texts and the coordinate lists. -/
structure LineAgg where
  words : List Str
  lefts : List Int
  tops : List Int
  rights : List Int
  bottoms : List Int
deriving DecidableEq

/-- The `(page_num, block_num, par_num, line_num)` grouping key. -/
def tokKey (t : Tok) : Int × Int × Int × Int := (t.page, t.block, t.par, t.line)

/-- A fresh line holding a single token. -/
def newLineAgg (t : Tok) : LineAgg :=
  ⟨[t.text], [t.left], [t.top], [t.left + t.width], [t.top + t.height]⟩

/-- Appending one token to an existing line, as the Python loop appends to
the per-line lists. -/
def pushTok (l : LineAgg) (t : Tok) : LineAgg :=
  ⟨l.words ++ [t.text], l.lefts ++ [t.left], l.tops ++ [t.top],
    l.rights ++ [t.left + t.width], l.bottoms ++ [t.top + t.height]⟩

/-- Insertion into the insertion-ordered dictionary of lines
(`lines.setdefault(key, ...)` of `_find_text_engine`): an existing key is
updated in place, a new key is appended at the end. -/
def addTok : List ((Int × Int × Int × Int) × LineAgg) → Tok → List ((Int × Int × Int × Int) × LineAgg)
  | [], t => [(tokKey t, newLineAgg t)]
  | (k, l) :: rest, t =>
    if k = tokKey t then (k, pushTok l t) :: rest else (k, l) :: addTok rest t

/-- The line-aggregation loop of `_find_text_engine`: rows with
whitespace-only text are skipped, the rest are grouped by `tokKey` in
insertion order. -/
def buildLines (rows : List Tok) : List ((Int × Int × Int × Int) × LineAgg) :=
  rows.foldl (fun acc t => if pyStrip t.text = [] then acc else addTok acc t) []

/-- Python `min` over a list (lines are nonempty wherever this is used). -/
def minList : List Int → Int
  | [] => 0
  | x :: xs => xs.foldl min x

/-- Python `max` over a list. -/
def maxList : List Int → Int
  | [] => 0
  | x :: xs => xs.foldl max x

/-- Python `" ".join(words)`. -/
def joinSpace : List Str → Str
  | [] => []
  | [w] => w
  | w :: ws => w ++ 0x20 :: joinSpace ws

/-- The per-line comparison text of `_find_text_engine`:
`self._normalize(line_text) if normalize else line_text.casefold()`. -/
def lineNormOf (useNorm : Bool) (l : LineAgg) : Str :=
  if useNorm then normalizeTr (joinSpace l.words) else pyCasefoldStr (joinSpace l.words)

/-- The bounding box `_find_text_engine` returns for a matched line: the
union of the member token boxes, with the region offset added when a
region was used — and, exactly as in the source, with no division by the
preprocessing scale factors. -/
def lineBbox (l : LineAgg) (ur : Option Rect) : Rect :=
  let x := minList l.lefts
  let y := minList l.tops
  let w := maxList l.rights - x
  let h := maxList l.bottoms - y
  match ur with
  | some r => (x + r.1, y + r.2.1, w, h)
  | none => (x, y, w, h)

/-- The per-line acceptance test of `_find_text_engine`: for some target,
`target in line_norm or ratio >= OCR_FUZZY_THRESHOLD`. -/
def lineAccepts (targets : List Str) (ln : Str) : Bool :=
  targets.any (fun t => isSubstr t ln || simOk ln t)

/-- The line loop of `_find_text_engine`: lines are scanned in aggregation
order and the first line accepting some target returns its box. -/
def scanLines (targets : List Str) (useNorm : Bool) (ur : Option Rect) : List LineAgg → Option Rect
  | [] => none
  | l :: rest =>
    if lineAccepts targets (lineNormOf useNorm l) then some (lineBbox l ur)
    else scanLines targets useNorm ur rest

/-- `_find_text_engine` from the point where the screenshot produced the
token rows: confidence filter (`conf >= confidence * 100`), aggregation
into lines, then the matching loop. -/
def findTextEngine (rows : List Tok) (targets : List Str) (conf : ℚ) (useNorm : Bool)
    (ur : Option Rect) : Option Rect :=
  scanLines targets useNorm ur
    ((buildLines (rows.filter (fun t => decide (qMul conf 100 ≤ t.conf)))).map Prod.snd)

/-- The backend loop of `find_text_on_screen`: each engine attempt either
raises (`Except.error`), finds nothing (`Except.ok none`) or produces a
box; the first box wins, failures and misses fall through to the next
engine, and an exhausted list is a plain no-match. -/
def orchestrateEngines : List (Except Unit (Option Rect)) → Option Rect
  | [] => none
  | Except.error _ :: rest => orchestrateEngines rest
  | Except.ok none :: rest => orchestrateEngines rest
  | Except.ok (some b) :: _ => some b

/-- `find_text_on_screen` over its two backend attempts, in the fixed
source order: EasyOCR first, then Tesseract. -/
def findTextOnScreenEngines (easy tess : Except Unit (Option Rect)) : Option Rect :=
  orchestrateEngines [easy, tess]

/-- Target preparation of `find_text_on_screen`:
`self._normalize(v) if normalize else v.casefold()`. -/
def normTarget (useNorm : Bool) (v : Str) : Str :=
  if useNorm then normalizeTr v else pyCasefoldStr v

/-- `find_text_on_screen` from the token rows each backend produced, as an
`Except` mirroring the Python exception surface of the call: every
pre-loop step is total and every engine exception is caught inside the
loop, so the function always returns normally (`Except.ok`). -/
def findTextOnScreenRows (variants : List Str) (useNorm : Bool) (easyRows tessRows : List Tok)
    (conf : ℚ) (easyR tessR : Option Rect) : Except Unit (Option Rect) :=
  Except.ok (findTextOnScreenEngines
    (Except.ok (findTextEngine easyRows (variants.map (normTarget useNorm)) conf useNorm easyR))
    (Except.ok (findTextEngine tessRows (variants.map (normTarget useNorm)) conf useNorm tessR)))

/-- Literal "Finans". -/
def strFinansTitle : Str := [70, 105, 110, 97, 110, 115]

/-- Literal "finans". -/
def strFinansLower : Str := [102, 105, 110, 97, 110, 115]

/-- Literal "FINANS". -/
def strFINANS : Str := [70, 73, 78, 65, 78, 83]

/-- Literal "İzle" with the dotted capital I (U+0130). -/
def strIzleDot : Str := [0x130, 122, 108, 101]

/-- Literal "izle". -/
def strIzleLower : Str := [105, 122, 108, 101]

/-- Literal "IZLE". -/
def strIZLE : Str := [73, 90, 76, 69]

/-- Literal "Izle" with a plain capital I. -/
def strIzleTitle : Str := [73, 122, 108, 101]

/-- The `left_variants` selection of `find_word_pair`. -/
def leftVariants (w : Str) : List Str :=
  if normalizeTr w = strFinansLower then [strFinansTitle, strFinansLower, strFINANS]
  else [w, pyLowerStr w, pyUpperStr w]

/-- The `right_variants` selection of `find_word_pair`. -/
def rightVariants (w : Str) : List Str :=
  if normalizeTr w = strIzleLower then [strIzleDot, strIzleLower, strIZLE, strIzleTitle]
  else [w, pyLowerStr w, pyUpperStr w]

/-- Membership of a normalized text in a target set (`ntext.isin(...)`). -/
def memStr (ts : List Str) (x : Str) : Bool := ts.any (fun t => decide (t = x))

/-- Ordering used by `sort_values(["line_num", "left"])`. -/
def tokLineLeftLe (x y : Tok) : Bool :=
  decide (x.line < y.line ∨ (x.line = y.line ∧ x.left ≤ y.left))

/-- Ordering used by `sort_values("top")`. -/
def tokTopLe (x y : Tok) : Bool := decide (x.top ≤ y.top)

/-- Insertion step of a stable insertion sort. -/
def insSorted (le : Tok → Tok → Bool) (a : Tok) : List Tok → List Tok
  | [] => [a]
  | b :: r => if le a b then a :: b :: r else b :: insSorted le a r

/-- Stable insertion sort (the pandas sort; ties between distinct rows do
not arise at the keys the proofs below use). -/
def sortToks (le : Tok → Tok → Bool) : List Tok → List Tok
  | [] => []
  | a :: r => insSorted le a (sortToks le r)

/-- The coordinate mapping of `find_word_pair` for an accepted pair: scale
factors from the processed image and region sizes (1 when a region side is
zero), region-relative coordinates by division, absolute coordinates by
adding the region origin, each passed through `int()`. -/
def pairBbox (L R : Tok) (imgW imgH : Int) (ur : Option Rect) (wr : Rect) : Rect :=
  let regionW : Int := match ur with | some r => r.2.2.1 | none => wr.2.2.1
  let regionH : Int := match ur with | some r => r.2.2.2 | none => wr.2.2.2
  let sx : ℚ := if regionW = 0 then 1 else Rat.divInt imgW regionW
  let sy : ℚ := if regionH = 0 then 1 else Rat.divInt imgH regionH
  let relX : ℚ := qDiv (intQ (min L.left R.left)) sx
  let relY : ℚ := qDiv (intQ (min L.top R.top)) sy
  let relW : ℚ := qDiv (intQ (max (L.left + L.width) (R.left + R.width) - min L.left R.left)) sx
  let relH : ℚ := qDiv (intQ (max (L.top + L.height) (R.top + R.height) - min L.top R.top)) sy
  let baseX : Int := match ur with | some r => r.1 | none => wr.1
  let baseY : Int := match ur with | some r => r.2.1 | none => wr.2.1
  (pyInt (qAdd relX (intQ baseX)), pyInt (qAdd relY (intQ baseY)), pyInt relW, pyInt relH)

/-- The right-token candidates for a given left token: same line, strictly
greater left, horizontal gap strictly below the budget, normalized text in
the right target set — in the original row order of the data frame. -/
def pairCandidates (df : List Tok) (rT : List Str) (maxGap : Int) (L : Tok) : List Tok :=
  df.filter (fun R =>
    decide (R.line = L.line) && decide (L.left < R.left)
      && decide (R.left - L.left < maxGap) && memStr rT (normalizeTr R.text))

/-- The search loop of `find_word_pair` over the sorted left-word tokens:
the first left token with a candidate returns the mapped pair box. -/
def scanPairs (df : List Tok) (rT : List Str) (maxGap : Int) (imgW imgH : Int)
    (ur : Option Rect) (wr : Rect) : List Tok → Option Rect
  | [] => none
  | L :: Ls =>
    match pairCandidates df rT maxGap L with
    | R :: _ => some (pairBbox L R imgW imgH ur wr)
    | [] => scanPairs df rT maxGap imgW imgH ur wr Ls

/-- `find_word_pair` from the point where the screenshot produced the token
rows: confidence filter (`conf >= conf_min`), target variant sets, left
tokens sorted by `(line_num, left)`, then the pair search. -/
def findWordPairCore (rows : List Tok) (leftWord rightWord : Str) (maxGap : Int)
    (confMin : ℚ) (imgW imgH : Int) (ur : Option Rect) (wr : Rect) : Option Rect :=
  scanPairs (rows.filter (fun t => decide (confMin ≤ t.conf)))
    ((rightVariants rightWord).map normalizeTr) maxGap imgW imgH ur wr
    (sortToks tokLineLeftLe
      ((rows.filter (fun t => decide (confMin ≤ t.conf))).filter
        (fun t => memStr ((leftVariants leftWord).map normalizeTr) (normalizeTr t.text))))

/-- One step of the geometry-only line clustering of `_screenshot` and
`find_word_pair_easyocr`: state `(last_top, line_num)`; a token whose top
exceeds `last_top` by more than 10 starts a new line and becomes the new
reference top. -/
def lineStep (st : Int × Int) (t : Tok) : (Int × Int) × Int :=
  if 10 < t.top - st.1 then ((t.top, st.2 + 1), st.2 + 1) else (st, st.2)

/-- The clustering loop over the top-sorted tokens. -/
def assignGo (st : Int × Int) : List Tok → List (Tok × Int)
  | [] => []
  | t :: r => (t, (lineStep st t).2) :: assignGo (lineStep st t).1 r

/-- Geometry-only line numbering: sort by `top`, then fold `lineStep` from
the initial state `(-9999, 0)`. -/
def assignLineNums (rows : List Tok) : List (Tok × Int) :=
  assignGo (-9999, 0) (sortToks tokTopLe rows)

/-- The polling loop of `wait_for_text`: at iteration `i` the wall clock is
read (`clock (i + 1)`; `clock 0` was read to compute the deadline) and the
loop exits with `False` once the deadline is reached, otherwise one full
search runs (`search i`).  Returns the outcome and the number of searches
performed; the fuel only bounds the modelled unrolling. -/
def waitLoop (endTime : ℚ) (clock : Nat → ℚ) (search : Nat → Bool) : Nat → Nat → Bool × Nat
  | 0, i => (false, i)
  | fuel + 1, i =>
    if Rat.blt (clock (i + 1)) endTime then
      (if search i then (true, i + 1) else waitLoop endTime clock search fuel (i + 1))
    else (false, i)

/-- `wait_for_text`: deadline `clock 0 + timeout`, then the polling loop. -/
def waitForText (timeout : ℚ) (clock : Nat → ℚ) (search : Nat → Bool) (fuel : Nat) : Bool × Nat :=
  waitLoop (qAdd (clock 0) timeout) clock search fuel 0

/-- Token "x" at image box (10, 10, 20, 20), confidence 90. -/
def tokX : Tok := ⟨[120], 10, 10, 20, 20, 90, 0, 0, 0, 1⟩

/-- Token "Finans" at (10, 10, 5, 5) for the mapping round-trip. -/
def tokFinansC1 : Tok := ⟨strFinansTitle, 10, 10, 5, 5, 92, 0, 0, 0, 1⟩

/-- Token "İzle" at (25, 25, 5, 5) for the mapping round-trip. -/
def tokIzleC1 : Tok := ⟨strIzleDot, 25, 25, 5, 5, 88, 0, 0, 0, 1⟩

/-- Token "Finans" at (0, 0, 60, 20) of the word-pair scenario. -/
def tokFinans : Tok := ⟨strFinansTitle, 0, 0, 60, 20, 92, 0, 0, 0, 1⟩

/-- Token "İzle" at (100, 2, 40, 20) of the word-pair scenario. -/
def tokIzle : Tok := ⟨strIzleDot, 100, 2, 40, 20, 88, 0, 0, 0, 1⟩

/-- Token "ab" used by the matcher counterexample. -/
def tokAB : Tok := ⟨[97, 98], 5, 6, 30, 10, 95, 0, 0, 0, 1⟩

/-- Token "hello" used by the empty-variant scenario. -/
def tokHello : Tok := ⟨[104, 101, 108, 108, 111], 5, 6, 30, 10, 95, 0, 0, 0, 1⟩

/-- The aggregated line of `tokHello`. -/
def lineHello : LineAgg := ⟨[[104, 101, 108, 108, 111]], [5], [6], [35], [16]⟩

/-- A token with top 0. -/
def tokTopA : Tok := ⟨[97], 0, 0, 10, 10, 90, 0, 0, 0, 0⟩

/-- A token with top 10 (exactly at the merge boundary). -/
def tokTopB : Tok := ⟨[98], 0, 10, 10, 10, 90, 0, 0, 0, 0⟩

/-- A token with top 11 (just past the merge boundary). -/
def tokTopC : Tok := ⟨[99], 0, 11, 10, 10, 90, 0, 0, 0, 0⟩

/-- ASCII lowercase of one code point (the action of `pyLowerChar` on the
ASCII range, where it always produces a single character). -/
def lowerA (c : Nat) : Nat := if 0x41 ≤ c ∧ c ≤ 0x5A then c + 0x20 else c

/-- Every whitespace character of the string is the plain ASCII space. -/
def only20 (s : Str) : Prop := ∀ c ∈ s, isSpace c = true → c = 0x20

/-- No two adjacent characters are both whitespace. -/
def noAdjSp : Str → Prop
  | [] => True
  | [_] => True
  | a :: b :: r => ¬(isSpace a = true ∧ isSpace b = true) ∧ noAdjSp (b :: r)

theorem isSubstr_nil : ∀ ln : Str, isSubstr [] ln = true
  | [] => rfl
  | _ :: _ => by simp [isSubstr, startsWithStr]

theorem mem_of_head? {l : Str} {a : Nat} (h : l.head? = some a) : a ∈ l := by
  cases l with
  | nil => simp at h
  | cons b r =>
    have : b = a := by simpa using h
    exact this ▸ List.mem_cons_self b r

theorem mem_dropWhile_sub : ∀ (l : Str) (c : Nat), c ∈ l.dropWhile isSpace → c ∈ l
  | [], c, h => by simp [List.dropWhile] at h
  | a :: r, c, h => by
    by_cases ha : isSpace a
    · rw [show (a :: r).dropWhile isSpace = r.dropWhile isSpace from by
        simp [List.dropWhile, ha]] at h
      exact List.mem_cons_of_mem a (mem_dropWhile_sub r c h)
    · rw [show (a :: r).dropWhile isSpace = a :: r from by simp [List.dropWhile, ha]] at h
      exact h

theorem head_dropWhile_nospace :
    ∀ (l : Str) (c : Nat), (l.dropWhile isSpace).head? = some c → isSpace c = false
  | [], c, h => by simp [List.dropWhile] at h
  | a :: r, c, h => by
    by_cases ha : isSpace a
    · rw [show (a :: r).dropWhile isSpace = r.dropWhile isSpace from by
        simp [List.dropWhile, ha]] at h
      exact head_dropWhile_nospace r c h
    · rw [show (a :: r).dropWhile isSpace = a :: r from by simp [List.dropWhile, ha]] at h
      have hac : a = c := by simpa using h
      rw [← hac]
      exact Bool.not_eq_true _ ▸ (by simpa [Bool.not_eq_true] using ha)

theorem dropWhile_suffix_ex : ∀ l : Str, ∃ t, l = t ++ l.dropWhile isSpace
  | [] => ⟨[], rfl⟩
  | a :: r => by
    by_cases ha : isSpace a
    · obtain ⟨t, ht⟩ := dropWhile_suffix_ex r
      refine ⟨a :: t, ?_⟩
      rw [show (a :: r).dropWhile isSpace = r.dropWhile isSpace from by
        simp [List.dropWhile, ha]]
      rw [List.cons_append, ← ht]
    · exact ⟨[], by simp [List.dropWhile, ha]⟩

theorem dropWhile_id_of_head (l : Str) (h : ∀ d, l.head? = some d → isSpace d = false) :
    l.dropWhile isSpace = l := by
  cases l with
  | nil => rfl
  | cons a r =>
    have := h a rfl
    simp [List.dropWhile, this]

theorem noAdjSp_cons (a : Nat) (l : Str) :
    noAdjSp (a :: l) ↔
      (∀ b, l.head? = some b → ¬(isSpace a = true ∧ isSpace b = true)) ∧ noAdjSp l := by
  cases l with
  | nil => simp [noAdjSp]
  | cons b r => simp [noAdjSp]

theorem noAdjSp_dropWhile : ∀ l : Str, noAdjSp l → noAdjSp (l.dropWhile isSpace)
  | [], h => h
  | a :: r, h => by
    by_cases ha : isSpace a
    · rw [show (a :: r).dropWhile isSpace = r.dropWhile isSpace from by
        simp [List.dropWhile, ha]]
      exact noAdjSp_dropWhile r ((noAdjSp_cons a r).mp h).2
    · rwa [show (a :: r).dropWhile isSpace = a :: r from by simp [List.dropWhile, ha]]

theorem noAdjSp_append_left : ∀ (l₁ l₂ : Str), noAdjSp (l₁ ++ l₂) → noAdjSp l₁
  | [], _, _ => trivial
  | [_], _, _ => trivial
  | a :: b :: r, l₂, h => by
    have h2 : noAdjSp (a :: b :: (r ++ l₂)) := h
    exact ⟨h2.1, noAdjSp_append_left (b :: r) l₂ h2.2⟩

theorem lowerA_space (c : Nat) : isSpace (lowerA c) = isSpace c := by
  unfold lowerA
  split_ifs with hc
  · have h1 : isSpace (c + 0x20) = false := by
      simp only [isSpace, decide_eq_false_iff_not]
      omega
    have h2 : isSpace c = false := by
      simp only [isSpace, decide_eq_false_iff_not]
      omega
    rw [h1, h2]
  · rfl

theorem lowerA_idem (c : Nat) : lowerA (lowerA c) = lowerA c := by
  unfold lowerA
  split_ifs <;> omega

theorem lowerA_lt (c : Nat) (h : c < 128) : lowerA c < 128 := by
  unfold lowerA
  split_ifs <;> omega

theorem latin1Encode_ascii : ∀ s : Str, (∀ c ∈ s, c < 128) → latin1Encode s = some s
  | [], _ => rfl
  | c :: rest, h => by
    have hc : c < 128 := h c (List.mem_cons_self c rest)
    have ih : latin1Encode rest = some rest :=
      latin1Encode_ascii rest (fun d hd => h d (List.mem_cons_of_mem c hd))
    simp only [latin1Encode]
    rw [if_pos (by omega : c ≤ 0xFF), ih]
    rfl

theorem utf8DecodeGo_ascii :
    ∀ (n : Nat) (s : List Nat), s.length ≤ n → (∀ c ∈ s, c < 128) → utf8DecodeGo n s = some s
  | n, [], _, _ => by cases n <;> rfl
  | 0, b :: rest, hlen, _ => by simp at hlen
  | n + 1, b :: rest, hlen, h => by
    have hb : b < 128 := h b (List.mem_cons_self b rest)
    have hlen2 : rest.length ≤ n := by
      simp only [List.length_cons] at hlen
      omega
    have ih : utf8DecodeGo n rest = some rest :=
      utf8DecodeGo_ascii n rest hlen2 (fun d hd => h d (List.mem_cons_of_mem b hd))
    have hfirst : utf8First b rest = some (b, rest) := by
      unfold utf8First
      rw [if_pos (by omega : b < 0x80)]
    simp only [utf8DecodeGo]
    rw [hfirst]
    dsimp only
    rw [ih]
    rfl

theorem utf8Decode_ascii (s : List Nat) (h : ∀ c ∈ s, c < 128) : utf8Decode s = some s :=
  utf8DecodeGo_ascii s.length s (Nat.le_refl _) h

theorem demojibake_ascii (s : Str) (h : ∀ c ∈ s, c < 128) : demojibake s = s := by
  unfold demojibake
  rw [latin1Encode_ascii s h]
  dsimp only
  rw [utf8Decode_ascii s h]

theorem nfkdChar_ascii (c : Nat) (h : c < 128) : nfkdChar c = [c] := by
  interval_cases c <;> rfl

theorem strConcatMap_congr_id (f : Nat → Str) :
    ∀ s : Str, (∀ c ∈ s, f c = [c]) → strConcatMap f s = s
  | [], _ => rfl
  | c :: rest, h => by
    simp only [strConcatMap]
    rw [h c (List.mem_cons_self c rest),
      strConcatMap_congr_id f rest (fun d hd => h d (List.mem_cons_of_mem c hd))]
    rfl

theorem strConcatMap_eq_map (f : Nat → Str) (g : Nat → Nat) :
    ∀ s : Str, (∀ c ∈ s, f c = [g c]) → strConcatMap f s = s.map g
  | [], _ => rfl
  | c :: rest, h => by
    simp only [strConcatMap, List.map_cons]
    rw [h c (List.mem_cons_self c rest),
      strConcatMap_eq_map f g rest (fun d hd => h d (List.mem_cons_of_mem c hd))]
    rfl

theorem map_congr_id (f : Nat → Nat) : ∀ s : Str, (∀ c ∈ s, f c = c) → s.map f = s
  | [], _ => rfl
  | c :: rest, h => by
    simp only [List.map_cons]
    rw [h c (List.mem_cons_self c rest),
      map_congr_id f rest (fun d hd => h d (List.mem_cons_of_mem c hd))]

theorem map_eq_of_eq (f g : Nat → Nat) :
    ∀ s : Str, (∀ c ∈ s, f c = g c) → s.map f = s.map g
  | [], _ => rfl
  | c :: rest, h => by
    simp only [List.map_cons]
    rw [h c (List.mem_cons_self c rest),
      map_eq_of_eq f g rest (fun d hd => h d (List.mem_cons_of_mem c hd))]

theorem nfkd_ascii (s : Str) (h : ∀ c ∈ s, c < 128) : nfkd s = s :=
  strConcatMap_congr_id nfkdChar s (fun c hc => nfkdChar_ascii c (h c hc))

theorem trTransChar_ascii (c : Nat) (h : c < 128) : trTransChar c = c := by
  interval_cases c <;> rfl

theorem trFold_ascii (s : Str) (h : ∀ c ∈ s, c < 128) : trFold s = s :=
  map_congr_id trTransChar s (fun c hc => trTransChar_ascii c (h c hc))

theorem dashChar_ascii (c : Nat) (h : c < 128) : dashChar c = c := by
  by_cases hd : c = 0x2D
  · rw [dashChar, if_pos (Or.inl hd), hd]
  · rw [dashChar, if_neg (by omega)]

theorem dashFold_ascii (s : Str) (h : ∀ c ∈ s, c < 128) : dashFold s = s :=
  map_congr_id dashChar s (fun c hc => dashChar_ascii c (h c hc))

theorem pyLowerChar_ascii (c : Nat) (h : c < 128) : pyLowerChar c = [lowerA c] := by
  by_cases hu : 0x41 ≤ c ∧ c ≤ 0x5A
  · rw [pyLowerChar, if_pos hu, lowerA, if_pos hu]
  · rw [pyLowerChar, if_neg hu, if_neg (by omega), if_neg (by omega), lowerA, if_neg hu]

theorem pyLowerStr_ascii (s : Str) (h : ∀ c ∈ s, c < 128) : pyLowerStr s = s.map lowerA :=
  strConcatMap_eq_map pyLowerChar lowerA s (fun c hc => pyLowerChar_ascii c (h c hc))

theorem wsCollapse_mem : ∀ (s : Str) (c : Nat), c ∈ wsCollapse s → c = 0x20 ∨ c ∈ s
  | [], c, h => by simp [wsCollapse] at h
  | a :: r, c, h => by
    by_cases ha : isSpace a
    · by_cases hh : (wsCollapse r).head? = some 0x20
      · rw [show wsCollapse (a :: r) = wsCollapse r from by simp [wsCollapse, ha, hh]] at h
        rcases wsCollapse_mem r c h with h1 | h2
        exacts [Or.inl h1, Or.inr (List.mem_cons_of_mem a h2)]
      · rw [show wsCollapse (a :: r) = 0x20 :: wsCollapse r from by
          simp [wsCollapse, ha, hh]] at h
        rcases List.mem_cons.mp h with h1 | h2
        · exact Or.inl h1
        · rcases wsCollapse_mem r c h2 with h3 | h4
          exacts [Or.inl h3, Or.inr (List.mem_cons_of_mem a h4)]
    · rw [show wsCollapse (a :: r) = a :: wsCollapse r from by simp [wsCollapse, ha]] at h
      rcases List.mem_cons.mp h with h1 | h2
      · exact Or.inr (h1 ▸ List.mem_cons_self a r)
      · rcases wsCollapse_mem r c h2 with h3 | h4
        exacts [Or.inl h3, Or.inr (List.mem_cons_of_mem a h4)]

theorem wsCollapse_only20 : ∀ s : Str, only20 (wsCollapse s)
  | [] => by intro c hc
             simp [wsCollapse] at hc
  | a :: r => by
    by_cases ha : isSpace a
    · by_cases hh : (wsCollapse r).head? = some 0x20
      · rw [show wsCollapse (a :: r) = wsCollapse r from by simp [wsCollapse, ha, hh]]
        exact wsCollapse_only20 r
      · rw [show wsCollapse (a :: r) = 0x20 :: wsCollapse r from by
          simp [wsCollapse, ha, hh]]
        intro c hc hsp
        rcases List.mem_cons.mp hc with h1 | h2
        · exact h1
        · exact wsCollapse_only20 r c h2 hsp
    · rw [show wsCollapse (a :: r) = a :: wsCollapse r from by simp [wsCollapse, ha]]
      intro c hc hsp
      rcases List.mem_cons.mp hc with h1 | h2
      · exact absurd (h1 ▸ hsp) (by simpa [Bool.not_eq_true] using ha)
      · exact wsCollapse_only20 r c h2 hsp

theorem wsCollapse_noAdj : ∀ s : Str, noAdjSp (wsCollapse s)
  | [] => trivial
  | a :: r => by
    by_cases ha : isSpace a
    · by_cases hh : (wsCollapse r).head? = some 0x20
      · rw [show wsCollapse (a :: r) = wsCollapse r from by simp [wsCollapse, ha, hh]]
        exact wsCollapse_noAdj r
      · rw [show wsCollapse (a :: r) = 0x20 :: wsCollapse r from by
          simp [wsCollapse, ha, hh]]
        refine (noAdjSp_cons _ _).mpr ⟨?_, wsCollapse_noAdj r⟩
        rintro b hb ⟨-, hspb⟩
        have hb20 : b = 0x20 := wsCollapse_only20 r b (mem_of_head? hb) hspb
        exact hh (hb20 ▸ hb)
    · rw [show wsCollapse (a :: r) = a :: wsCollapse r from by simp [wsCollapse, ha]]
      refine (noAdjSp_cons _ _).mpr ⟨?_, wsCollapse_noAdj r⟩
      rintro b hb ⟨hspa, -⟩
      exact ha hspa

theorem wsCollapse_fix : ∀ s : Str, only20 s → noAdjSp s → wsCollapse s = s
  | [], _, _ => rfl
  | a :: r, h20, hadj => by
    have hr : wsCollapse r = r :=
      wsCollapse_fix r (fun c hc hs => h20 c (List.mem_cons_of_mem a hc) hs)
        ((noAdjSp_cons a r).mp hadj).2
    by_cases ha : isSpace a
    · have ha20 : a = 0x20 := h20 a (List.mem_cons_self a r) ha
      have hh : ¬ (wsCollapse r).head? = some 0x20 := by
        rw [hr]
        cases r with
        | nil => simp
        | cons b r2 =>
          intro hb
          have hb20 : b = 0x20 := by simpa using hb
          refine ((noAdjSp_cons a (b :: r2)).mp hadj).1 b rfl ⟨ha, ?_⟩
          rw [hb20]
          decide
      rw [show wsCollapse (a :: r) = 0x20 :: wsCollapse r from by
        simp [wsCollapse, ha, hh], hr, ha20]
    · rw [show wsCollapse (a :: r) = a :: wsCollapse r from by simp [wsCollapse, ha], hr]

theorem pyStrip_mem (l : Str) (c : Nat) (h : c ∈ pyStrip l) : c ∈ l := by
  unfold pyStrip dropTrailingSp at h
  have h1 := List.mem_reverse.mp h
  have h2 := mem_dropWhile_sub _ c h1
  have h3 := List.mem_reverse.mp h2
  exact mem_dropWhile_sub l c h3

theorem pyStrip_fix (t : Str) (hh : ∀ d, t.head? = some d → isSpace d = false)
    (hl : ∀ d, t.reverse.head? = some d → isSpace d = false) : pyStrip t = t := by
  unfold pyStrip dropTrailingSp
  rw [dropWhile_id_of_head t hh, dropWhile_id_of_head t.reverse hl, List.reverse_reverse]

theorem map_rev (f : Nat → Nat) (l : Str) : (l.map f).reverse = l.reverse.map f :=
  (List.map_reverse f l).symm

theorem noAdjSp_map_lowerA : ∀ l : Str, noAdjSp l → noAdjSp (l.map lowerA)
  | [], _ => trivial
  | [_], _ => trivial
  | a :: b :: r, h => by
    refine ⟨?_, noAdjSp_map_lowerA (b :: r) h.2⟩
    rw [lowerA_space, lowerA_space]
    exact h.1

theorem normalizeTr_ascii_form (s : Str) (h : ∀ c ∈ s, c < 128) :
    normalizeTr s = (pyStrip (wsCollapse s)).map lowerA := by
  unfold normalizeTr
  rw [demojibake_ascii s h, nfkd_ascii s h, trFold_ascii s h, dashFold_ascii s h]
  refine pyLowerStr_ascii _ (fun c hc => ?_)
  rcases wsCollapse_mem s c (pyStrip_mem _ c hc) with h1 | h2
  · omega
  · exact h c h2

/-- C6 (amended): normalize_tr is idempotent on ASCII inputs; the
mojibake re-decoding step excludes general idempotence (see the
counterexample), but on strings of code points below 128 the demojibake,
NFKD, translation and dash stages are the identity and the
whitespace-collapse, strip and lowercase stages are idempotent. -/
theorem claim_C6_amended (s : Str) (h : ∀ c ∈ s, c < 128) :
    normalizeTr (normalizeTr s) = normalizeTr s := by
  have hform := normalizeTr_ascii_form s h
  have huascii : ∀ c ∈ pyStrip (wsCollapse s), c < 128 := by
    intro c hc
    rcases wsCollapse_mem s c (pyStrip_mem _ c hc) with h1 | h2
    · omega
    · exact h c h2
  have hurev : (pyStrip (wsCollapse s)).reverse
      = ((wsCollapse s).dropWhile isSpace).reverse.dropWhile isSpace := by
    unfold pyStrip dropTrailingSp
    rw [List.reverse_reverse]
  obtain ⟨w, hw⟩ := dropWhile_suffix_ex ((wsCollapse s).dropWhile isSpace).reverse
  rw [← hurev] at hw
  have hveq : (wsCollapse s).dropWhile isSpace = pyStrip (wsCollapse s) ++ w.reverse := by
    have h2 := congrArg List.reverse hw
    rw [List.reverse_reverse, List.reverse_append, List.reverse_reverse] at h2
    exact h2
  have hvadj : noAdjSp ((wsCollapse s).dropWhile isSpace) :=
    noAdjSp_dropWhile _ (wsCollapse_noAdj s)
  have huadj : noAdjSp (pyStrip (wsCollapse s)) := by
    refine noAdjSp_append_left _ w.reverse ?_
    rw [← hveq]
    exact hvadj
  have huonly : only20 (pyStrip (wsCollapse s)) := by
    intro c hc hsp
    refine wsCollapse_only20 s c (mem_dropWhile_sub _ c ?_) hsp
    rw [hveq]
    exact List.mem_append_left _ hc
  have huhead : ∀ d, (pyStrip (wsCollapse s)).head? = some d → isSpace d = false := by
    intro d hd
    have hvhead : ((wsCollapse s).dropWhile isSpace).head? = some d := by
      rw [hveq, List.head?_append, hd]
      rfl
    exact head_dropWhile_nospace (wsCollapse s) d hvhead
  have hulast : ∀ d, (pyStrip (wsCollapse s)).reverse.head? = some d → isSpace d = false := by
    intro d hd
    rw [hurev] at hd
    exact head_dropWhile_nospace _ d hd
  have htascii : ∀ c ∈ (pyStrip (wsCollapse s)).map lowerA, c < 128 := by
    intro c hc
    obtain ⟨d, hd, rfl⟩ := List.mem_map.mp hc
    exact lowerA_lt d (huascii d hd)
  have htonly : only20 ((pyStrip (wsCollapse s)).map lowerA) := by
    intro c hc hsp
    obtain ⟨d, hd, rfl⟩ := List.mem_map.mp hc
    rw [lowerA_space] at hsp
    rw [huonly d hd hsp]
    decide
  have htadj := noAdjSp_map_lowerA _ huadj
  have hthead : ∀ d, ((pyStrip (wsCollapse s)).map lowerA).head? = some d → isSpace d = false := by
    intro d hd
    rw [List.head?_map] at hd
    cases hu2 : (pyStrip (wsCollapse s)).head? with
    | none => rw [hu2] at hd; simp at hd
    | some b =>
      rw [hu2] at hd
      have hbd : lowerA b = d := by simpa using hd
      rw [← hbd, lowerA_space]
      exact huhead b hu2
  have htlast : ∀ d, ((pyStrip (wsCollapse s)).map lowerA).reverse.head? = some d →
      isSpace d = false := by
    intro d hd
    rw [map_rev, List.head?_map] at hd
    cases hu2 : (pyStrip (wsCollapse s)).reverse.head? with
    | none => rw [hu2] at hd; simp at hd
    | some b =>
      rw [hu2] at hd
      have hbd : lowerA b = d := by simpa using hd
      rw [← hbd, lowerA_space]
      exact hulast b hu2
  rw [hform]
  rw [normalizeTr_ascii_form _ htascii]
  rw [wsCollapse_fix _ htonly htadj]
  rw [pyStrip_fix _ hthead htlast]
  rw [List.map_map]
  exact map_eq_of_eq _ _ _ (fun c _ => lowerA_idem c)

theorem scanLines_eq_find (targets : List Str) (un : Bool) (ur : Option Rect) :
    ∀ ls : List LineAgg,
      scanLines targets un ur ls =
        (ls.find? (fun l => lineAccepts targets (lineNormOf un l))).map (fun l => lineBbox l ur)
  | [] => rfl
  | l :: rest => by
    by_cases hl : lineAccepts targets (lineNormOf un l) = true
    · rw [show scanLines targets un ur (l :: rest) = some (lineBbox l ur) from by
        simp [scanLines, hl]]
      rw [@List.find?_cons_of_pos LineAgg
        (fun x => lineAccepts targets (lineNormOf un x)) l rest hl]
      rfl
    · rw [show scanLines targets un ur (l :: rest) = scanLines targets un ur rest from by
        simp [scanLines, hl]]
      rw [@List.find?_cons_of_neg LineAgg
        (fun x => lineAccepts targets (lineNormOf un x)) l rest hl]
      exact scanLines_eq_find targets un ur rest

/-- C3 (amended): in `_find_text_engine` a line is accepted iff some target
is a substring of the normalized line text (one direction only) or the
difflib ratio between the normalized line text and the target reaches the
module constant OCR_FUZZY_THRESHOLD — the caller-supplied confidence is
used only for the token filter, not as the fuzzy threshold, and the first
satisfying line in aggregation order determines the returned bbox. -/
theorem claim_C3_amended (rows : List Tok) (targets : List Str) (conf : ℚ) (un : Bool)
    (ur : Option Rect) :
    findTextEngine rows targets conf un ur =
      (((buildLines (rows.filter (fun t => decide (qMul conf 100 ≤ t.conf)))).map
            Prod.snd).find?
          (fun l => targets.any
            (fun t => isSubstr t (lineNormOf un l) || simOk (lineNormOf un l) t))).map
        (fun l => lineBbox l ur) :=
  scanLines_eq_find targets un ur _

/-- C3 (counterexample): the claim also accepts a line whose normalized
text is a strict substring of the variant; the code does not.  The
aggregated line "ab" is a substring of the target, while the target is not
a substring of the line and the ratio 4/22 is below the threshold, so the
engine finds nothing. -/
theorem claim_C3_counterexample :
    findTextEngine [tokAB] [[97, 98] ++ List.replicate 20 99] (Rat.divInt 4 5) true none
        = none ∧
      isSubstr (normalizeTr [97, 98]) ([97, 98] ++ List.replicate 20 99) = true := by
  constructor
  · decide
  · decide

/-- C4: the orchestrator of find_text_on_screen tries EasyOCR before
Tesseract; a successful higher-priority backend returns immediately with
the lower-priority backend never examined; a raising backend or one that
finds nothing falls through to the next; and an exhausted backend list is
a plain no-match (the function is total, so no exception reaches the
caller). -/
theorem claim_C4 :
    (∀ (b : Rect) (r₂ : Except Unit (Option Rect)),
        findTextOnScreenEngines (Except.ok (some b)) r₂ = some b) ∧
      (∀ r₂ : Except Unit (Option Rect),
        findTextOnScreenEngines (Except.error ()) r₂ = orchestrateEngines [r₂]) ∧
      (∀ r₂ : Except Unit (Option Rect),
        findTextOnScreenEngines (Except.ok none) r₂ = orchestrateEngines [r₂]) ∧
      (∀ b : Rect, orchestrateEngines [Except.ok (some b)] = some b) ∧
      orchestrateEngines [Except.error ()] = none ∧
      orchestrateEngines [Except.ok none] = none :=
  ⟨fun _ _ => rfl, fun _ => rfl, fun _ => rfl, fun _ => rfl, rfl, rfl⟩

/-- C5 (counterexample): an empty target variant matches every line,
because Python substring containment with an empty needle is always true;
with one aggregated line "hello" the engine returns its bbox instead of no
match. -/
theorem claim_C5_counterexample :
    findTextEngine [tokHello] [[]] (Rat.divInt 4 5) true none = some (5, 6, 30, 10) := by
  decide

/-- C5 (amended): whenever the empty string is among the (normalized)
targets and at least one line survives filtering and aggregation, the
engine returns the bbox of the first aggregated line. -/
theorem claim_C5_amended (rows : List Tok) (targets : List Str) (conf : ℚ) (un : Bool)
    (ur : Option Rect) (l : LineAgg) (ls : List LineAgg)
    (hmem : ([] : Str) ∈ targets)
    (hlines : (buildLines (rows.filter (fun t => decide (qMul conf 100 ≤ t.conf)))).map
        Prod.snd = l :: ls) :
    findTextEngine rows targets conf un ur = some (lineBbox l ur) := by
  unfold findTextEngine
  rw [hlines]
  have hacc : lineAccepts targets (lineNormOf un l) = true := by
    refine List.any_eq_true.mpr ⟨[], hmem, ?_⟩
    rw [isSubstr_nil]
    rfl
  simp [scanLines, hacc]

/-- Witness for the amended C5 at the concrete one-token input. -/
theorem claim_C5_witness :
    (([] : Str) ∈ [([] : Str)]) ∧
      (buildLines ([tokHello].filter
          (fun t => decide (qMul (Rat.divInt 4 5) 100 ≤ t.conf)))).map Prod.snd
        = [lineHello] ∧
      findTextEngine [tokHello] [[]] (Rat.divInt 4 5) true none
        = some (lineBbox lineHello none) :=
  ⟨by decide, by decide,
    claim_C5_amended [tokHello] [[]] (Rat.divInt 4 5) true none lineHello []
      (by decide) (by decide)⟩

/-- C6 (counterexample): idempotence of normalize_tr fails on an input
whose normalized form is itself mojibake-redecodable.  The string
U+00DF U+00A1 U+00A0 is invalid UTF-8 when re-encoded as Latin-1 (the
trailing byte A0 is a stray continuation), so demojibake keeps it; NFKD
turns the no-break space into a space which is then stripped, leaving
U+00DF U+00A1 — and the second pass re-decodes those two bytes into the
single code point U+07E1. -/
theorem claim_C6_counterexample :
    normalizeTr (normalizeTr [0xDF, 0xA1, 0xA0]) ≠ normalizeTr [0xDF, 0xA1, 0xA0] := by
  decide

/-- Witness for the amended C6 at a concrete ASCII input with a double
space. -/
theorem claim_C6_witness :
    (∀ c ∈ [72, 73, 32, 32, 74], c < 128) ∧
      normalizeTr (normalizeTr [72, 73, 32, 32, 74]) = normalizeTr [72, 73, 32, 32, 74] :=
  ⟨by decide, claim_C6_amended [72, 73, 32, 32, 74] (by decide)⟩

theorem qAdd_eq (a b : ℚ) : qAdd a b = a + b := by
  unfold qAdd
  conv_rhs => rw [← Rat.num_divInt_den a, ← Rat.num_divInt_den b]
  rw [Rat.divInt_add_divInt _ _ (by exact_mod_cast a.den_ne_zero : (a.den : Int) ≠ 0)
    (by exact_mod_cast b.den_ne_zero : (b.den : Int) ≠ 0)]

/-- C10: wait_for_text with a non-positive timeout exits immediately with
False and performs no search at all (the second component counts the
find_text_on_screen invocations), provided the wall clock never reads
earlier than its first reading. -/
theorem claim_C10 (timeout : ℚ) (clock : Nat → ℚ) (search : Nat → Bool) (fuel : Nat)
    (h0 : timeout ≤ 0) (hmono : ∀ j, clock 0 ≤ clock j) :
    waitForText timeout clock search fuel = (false, 0) := by
  unfold waitForText
  cases fuel with
  | zero => rfl
  | succ f =>
    have hle : qAdd (clock 0) timeout ≤ clock (0 + 1) := by
      rw [qAdd_eq]
      have h1 := hmono (0 + 1)
      have h2 : clock 0 + timeout ≤ clock 0 := by linarith
      linarith
    have hnb : Rat.blt (clock (0 + 1)) (qAdd (clock 0) timeout) = false := by
      rw [Bool.eq_false_iff]
      exact fun hb => absurd hle (not_le.mpr hb)
    simp [waitLoop, hnb]

/-- Witness for C10 at timeout 0 with a constant clock. -/
theorem claim_C10_witness :
    ((0 : ℚ) ≤ 0) ∧ waitForText 0 (fun _ => 0) (fun _ => true) 3 = (false, 0) :=
  ⟨le_refl 0, claim_C10 0 (fun _ => 0) (fun _ => true) 3 (le_refl 0) (fun _ => le_refl 0)⟩

theorem scanLines_nil_targets (un : Bool) (ur : Option Rect) :
    ∀ ls : List LineAgg, scanLines [] un ur ls = none
  | [] => rfl
  | l :: rest => by
    rw [show scanLines [] un ur (l :: rest) = scanLines [] un ur rest from by
      simp [scanLines, lineAccepts]]
    exact scanLines_nil_targets un ur rest

/-- C8 (amended): an empty target variant list is not rejected; the
engines are still run and find_text_on_screen returns the ordinary
no-match value None, with no exception surfaced to the caller. -/
theorem claim_C8_amended (un : Bool) (easyRows tessRows : List Tok) (conf : ℚ)
    (r₁ r₂ : Option Rect) :
    findTextOnScreenRows [] un easyRows tessRows conf r₁ r₂ = Except.ok none := by
  unfold findTextOnScreenRows findTextEngine
  simp only [List.map_nil]
  rw [scanLines_nil_targets, scanLines_nil_targets]
  rfl

/-- C8 (counterexample): with a token on screen and an empty variant list,
the call returns the normal no-match `Except.ok none` — it is silently
coerced, not surfaced as a rejected request. -/
theorem claim_C8_counterexample :
    findTextOnScreenRows [] true [tokHello] [tokHello] (Rat.divInt 4 5) none none
      = Except.ok none := rfl

/-- C9: in the geometry-only line clustering, a token whose top exceeds
the current line reference top by at most 10 pixels joins the current line
and the reference is unchanged, while an excess of 11 or more starts a new
line whose reference is the token top; the concrete instances run the full
sort-and-fold pipeline at the 10px and 11px boundaries. -/
theorem claim_C9 :
    (∀ (lt n : Int) (t : Tok), t.top - lt ≤ 10 → lineStep (lt, n) t = ((lt, n), n)) ∧
      (∀ (lt n : Int) (t : Tok), 11 ≤ t.top - lt →
        lineStep (lt, n) t = ((t.top, n + 1), n + 1)) ∧
      assignLineNums [tokTopA, tokTopB] = [(tokTopA, 1), (tokTopB, 1)] ∧
      assignLineNums [tokTopA, tokTopC] = [(tokTopA, 1), (tokTopC, 2)] := by
  refine ⟨?_, ?_, by decide, by decide⟩
  · intro lt n t h
    unfold lineStep
    dsimp only
    rw [if_neg (by omega)]
  · intro lt n t h
    unfold lineStep
    dsimp only
    rw [if_pos (by omega)]

/-- Witness for C9 at the exact boundary values. -/
theorem claim_C9_witness :
    ((tokTopB.top - 0 ≤ 10) ∧ lineStep (0, 1) tokTopB = ((0, 1), 1)) ∧
      ((11 ≤ tokTopC.top - 0) ∧ lineStep (0, 1) tokTopC = ((tokTopC.top, 2), 2)) :=
  ⟨⟨by decide, claim_C9.1 0 1 tokTopB (by decide)⟩,
    ⟨by decide, claim_C9.2.1 0 1 tokTopC (by decide)⟩⟩

theorem mem_insSorted (le : Tok → Tok → Bool) (a x : Tok) :
    ∀ l : List Tok, x ∈ insSorted le a l ↔ x = a ∨ x ∈ l
  | [] => by simp [insSorted]
  | b :: r => by
    by_cases hab : le a b
    · rw [show insSorted le a (b :: r) = a :: b :: r from by simp [insSorted, hab]]
      simp [List.mem_cons]
    · rw [show insSorted le a (b :: r) = b :: insSorted le a r from by simp [insSorted, hab]]
      rw [List.mem_cons, mem_insSorted le a x r, List.mem_cons]
      tauto

theorem mem_sortToks (le : Tok → Tok → Bool) (x : Tok) :
    ∀ l : List Tok, x ∈ sortToks le l ↔ x ∈ l
  | [] => Iff.rfl
  | a :: r => by
    rw [show sortToks le (a :: r) = insSorted le a (sortToks le r) from rfl]
    rw [mem_insSorted, mem_sortToks le x r, List.mem_cons]

theorem scanPairs_sound (df : List Tok) (rT : List Str) (g iw ihh : Int)
    (ur : Option Rect) (wr : Rect) (b : Rect) :
    ∀ lefts : List Tok, scanPairs df rT g iw ihh ur wr lefts = some b →
      ∃ L R : Tok, L ∈ lefts ∧ R ∈ pairCandidates df rT g L ∧ b = pairBbox L R iw ihh ur wr
  | [], h => by simp [scanPairs] at h
  | L :: Ls, h => by
    cases hc : pairCandidates df rT g L with
    | nil =>
      have heq : scanPairs df rT g iw ihh ur wr (L :: Ls)
          = scanPairs df rT g iw ihh ur wr Ls := by
        simp [scanPairs, hc]
      obtain ⟨L2, R, hmem, hcand, hb⟩ :=
        scanPairs_sound df rT g iw ihh ur wr b Ls (heq.symm.trans h)
      exact ⟨L2, R, List.mem_cons_of_mem L hmem, hcand, hb⟩
    | cons R rest =>
      have heq : scanPairs df rT g iw ihh ur wr (L :: Ls)
          = some (pairBbox L R iw ihh ur wr) := by
        simp [scanPairs, hc]
      rw [heq] at h
      have hb : b = pairBbox L R iw ihh ur wr := (Option.some.inj h).symm
      refine ⟨L, R, List.mem_cons_self L Ls, ?_, hb⟩
      rw [hc]
      exact List.mem_cons_self R rest

/-- C7 (counterexample): for the tokens Finans (0,0,60,20) and İzle
(100,2,40,20) on one line, the union box height is 22 (the İzle box ends
at 2 + 20), so find_word_pair returns (0,0,140,22), not the claimed
(0,0,140,20). -/
theorem claim_C7_counterexample :
    findWordPairCore [tokFinans, tokIzle] strFinansLower strIzleLower 300 30 800 600
        (some (0, 0, 800, 600)) (0, 0, 800, 600) = some (0, 0, 140, 22) ∧
      (some ((0 : Int), (0 : Int), (140 : Int), (22 : Int)) : Option Rect)
        ≠ some (0, 0, 140, 20) :=
  ⟨by decide, by decide⟩

/-- C7 (amended): the scenario with max_gap 300 returns the union box
(0,0,140,22) (height 22, not 20); with max_gap 50 it returns none; and in
general any returned box comes from a left/right token pair on the same
line with strictly greater right left-coordinate, horizontal gap strictly
below the budget, both above the confidence cutoff and matching their
variant sets, the box being the mapped union of the two token boxes. -/
theorem claim_C7_amended :
    (findWordPairCore [tokFinans, tokIzle] strFinansLower strIzleLower 300 30 800 600
        (some (0, 0, 800, 600)) (0, 0, 800, 600) = some (0, 0, 140, 22)) ∧
      (findWordPairCore [tokFinans, tokIzle] strFinansLower strIzleLower 50 30 800 600
        (some (0, 0, 800, 600)) (0, 0, 800, 600) = none) ∧
      (∀ (rows : List Tok) (lw rw2 : Str) (g : Int) (cm : ℚ) (iw ihh : Int)
          (ur : Option Rect) (wr : Rect) (b : Rect),
        findWordPairCore rows lw rw2 g cm iw ihh ur wr = some b →
        ∃ L R : Tok, L ∈ rows ∧ R ∈ rows ∧ cm ≤ L.conf ∧ cm ≤ R.conf ∧
          memStr ((leftVariants lw).map normalizeTr) (normalizeTr L.text) = true ∧
          memStr ((rightVariants rw2).map normalizeTr) (normalizeTr R.text) = true ∧
          R.line = L.line ∧ L.left < R.left ∧ R.left - L.left < g ∧
          b = pairBbox L R iw ihh ur wr) := by
  refine ⟨by decide, by decide, ?_⟩
  intro rows lw rw2 g cm iw ihh ur wr b hfind
  unfold findWordPairCore at hfind
  obtain ⟨L, R, hLmem, hRcand, hb⟩ := scanPairs_sound _ _ _ _ _ _ _ _ _ hfind
  rw [mem_sortToks] at hLmem
  have hLf := List.mem_filter.mp hLmem
  have hLdf := List.mem_filter.mp hLf.1
  have hRf := List.mem_filter.mp hRcand
  have hR4 := hRf.2
  simp only [Bool.and_eq_true, decide_eq_true_eq] at hR4
  exact ⟨L, R, hLdf.1, (List.mem_filter.mp hRf.1).1,
    of_decide_eq_true hLdf.2, of_decide_eq_true (List.mem_filter.mp hRf.1).2,
    hLf.2, hR4.2, hR4.1.1.1, hR4.1.1.2, hR4.1.2, hb⟩

/-- Witness for the amended C7: the general soundness applied to the
concrete scenario. -/
theorem claim_C7_witness :
    ∃ L R : Tok, L ∈ [tokFinans, tokIzle] ∧ R ∈ [tokFinans, tokIzle] ∧
      (30 : ℚ) ≤ L.conf ∧ (30 : ℚ) ≤ R.conf ∧
      memStr ((leftVariants strFinansLower).map normalizeTr) (normalizeTr L.text) = true ∧
      memStr ((rightVariants strIzleLower).map normalizeTr) (normalizeTr R.text) = true ∧
      R.line = L.line ∧ L.left < R.left ∧ R.left - L.left < 300 ∧
      (((0 : Int), (0 : Int), (140 : Int), (22 : Int)) : Rect) = pairBbox L R 800 600
        (some (0, 0, 800, 600)) (0, 0, 800, 600) :=
  claim_C7_amended.2.2 [tokFinans, tokIzle] strFinansLower strIzleLower 300 30 800 600
    (some (0, 0, 800, 600)) (0, 0, 800, 600) (0, 0, 140, 22) (by decide)

/-- C1 (code evaluation at the failing input): the word-pair path divides
by the scale factors and then adds the region origin, mapping the
image-space union box (10,10,20,20) found at scale 2 in region
(100,50,800,600) to the claimed (105,55,10,10); the text path of
_find_text_engine only adds the region origin and never divides by the
scale factors, returning (110,60,20,20) for the same image-space box —
contradicting the claim and the coordinate-mapping contract. -/
theorem claim_C1_code_eval :
    findWordPairCore [tokFinansC1, tokIzleC1] strFinansLower strIzleLower 300 30 1600 1200
        (some (100, 50, 800, 600)) (100, 50, 800, 600) = some (105, 55, 10, 10) ∧
      findTextEngine [tokX] [[120]] (Rat.divInt 4 5) true (some (100, 50, 800, 600))
        = some (110, 60, 20, 20) ∧
      (some ((110 : Int), (60 : Int), (20 : Int), (20 : Int)) : Option Rect)
        ≠ some (105, 55, 10, 10) :=
  ⟨by decide, by decide, by decide⟩

/-- C2 (counterexample): normalize_tr does not fold the dotted capital I
to plain ASCII — NFKD decomposes U+0130 into I plus the combining dot
U+0307 before the translation table is applied, and the combining dot
survives, so normalize_tr "İZLE" keeps a fifth, non-ASCII code point and
differs from normalize_tr "izle"; likewise for "FİNANS" versus "finans". -/
theorem claim_C2_counterexample :
    normalizeTr [0x130, 0x5A, 0x4C, 0x45] ≠ normalizeTr [105, 122, 108, 101] ∧
      normalizeTr [70, 0x130, 78, 65, 78, 83] ≠ normalizeTr [102, 105, 110, 97, 110, 115] :=
  ⟨by decide, by decide⟩

/-- C2 (amended): the fold is deterministic but keeps the combining dot:
normalize_tr maps "İZLE" and "İzle" to i U+0307 z l e, maps "IZLE",
"Izle" and "izle" to "izle", and maps "FİNANS" to f i U+0307 n a n s,
which differs from normalize_tr "finans" = "finans". -/
theorem claim_C2_amended :
    normalizeTr [0x130, 0x5A, 0x4C, 0x45] = [105, 775, 122, 108, 101] ∧
      normalizeTr [0x130, 122, 108, 101] = [105, 775, 122, 108, 101] ∧
      normalizeTr [73, 90, 76, 69] = [105, 122, 108, 101] ∧
      normalizeTr [73, 122, 108, 101] = [105, 122, 108, 101] ∧
      normalizeTr [105, 122, 108, 101] = [105, 122, 108, 101] ∧
      normalizeTr [70, 0x130, 78, 65, 78, 83] = [102, 105, 775, 110, 97, 110, 115] ∧
      normalizeTr [102, 105, 110, 97, 110, 115] = [102, 105, 110, 97, 110, 115] :=
  ⟨by decide, by decide, by decide, by decide, by decide, by decide, by decide⟩
